import Mathlib

/-!
Shallow embedding of `src/streaming_analytics.py`, a linear pandas script:
load → clean → statistics → plots.  Tables are lists of rows; pandas
timestamps are calendar dates with a rata-die day count (the dataset holds
pure dates, so timestamp subtraction in days is exact); a missing value
(`NaN`/`NaT`) is `Option.none`; library calls (`pd.to_datetime`,
`drop_duplicates`, `Series.mean/var/std`, `groupby(...).size()`) are given
their documented semantics as explicit Lean functions.
-/

set_option autoImplicit false

deriving instance DecidableEq for Except

namespace StreamingAnalytics

/-! ## Calendar dates -/

/-- A calendar date, the payload of a pandas `Timestamp` in this dataset
(all values are pure dates at midnight). -/
structure Date where
  year : Nat
  month : Nat
  day : Nat
deriving DecidableEq, Repr

/-- Gregorian leap-year test. -/
def isLeap (y : Nat) : Bool :=
  (y % 4 = 0 && y % 100 ≠ 0) || y % 400 = 0

/-- Number of days in a month of a (leap or common) year. -/
def daysInMonth (leap : Bool) (m : Nat) : Nat :=
  match m with
  | 1 => 31 | 2 => if leap then 29 else 28 | 3 => 31 | 4 => 30
  | 5 => 31 | 6 => 30 | 7 => 31 | 8 => 31
  | 9 => 30 | 10 => 31 | 11 => 30 | 12 => 31
  | _ => 0

/-- Days strictly before month `m` within one year. -/
def daysBeforeMonth (leap : Bool) (m : Nat) : Nat :=
  (match m with
  | 1 => 0 | 2 => 31 | 3 => 59 | 4 => 90 | 5 => 120 | 6 => 151
  | 7 => 181 | 8 => 212 | 9 => 243 | 10 => 273 | 11 => 304 | 12 => 334
  | _ => 365)
  + (if leap && m > 2 then 1 else 0)

/-- Days strictly before January 1 of year `y` (proleptic Gregorian,
counting from year 1). -/
def daysBeforeYear (y : Nat) : Nat :=
  365 * (y - 1) + (y - 1) / 4 + (y - 1) / 400 - (y - 1) / 100

/-- Rata-die day number of a date: timestamp subtraction `.dt.days` is the
difference of these numbers. -/
def rataDie (d : Date) : Nat :=
  daysBeforeYear d.year + daysBeforeMonth (isLeap d.year) d.month + d.day

/-- Year-month bucket of a date, the embedding of
`Timestamp.to_period('M')`: consecutive calendar months map to consecutive
numbers, so `Nat` order is chronological order of months. -/
def periodM (d : Date) : Nat :=
  d.year * 12 + (d.month - 1)

/-- Calendar month (1–12) of a year-month bucket: the `.month` attribute of
the bucket's timestamp. -/
def monthOfKey (k : Nat) : Nat :=
  k % 12 + 1

/-! ## `pd.to_datetime`

Modelled from the spec: the date columns are "free-text/date-formatted"
strings parsed by `pandas.to_datetime`, which is not part of this
repository.  We model it on ISO-style `year-month-day` strings: components
are decimal numerals (leading zeros allowed, so textually different
spellings of the same date parse to the same timestamp, as in pandas), and
the date must be a valid calendar date.  Anything else fails to parse. -/

/-- Split a character list on the dash separator (always returns at least
one, possibly empty, component). -/
def splitDash : List Char → List (List Char)
  | [] => [[]]
  | c :: cs =>
      match splitDash cs with
      | [] => []
      | p :: ps => if c = '-' then [] :: p :: ps else (c :: p) :: ps

/-- Value of a decimal digit character, `none` otherwise. -/
def digitVal (c : Char) : Option Nat :=
  if c.isDigit then some (c.toNat - 48) else none

/-- Parse a nonempty all-digit component as a decimal numeral (leading
zeros allowed). -/
def parseNumeral (cs : List Char) : Option Nat :=
  match cs with
  | [] => none
  | _ :: _ => cs.foldl (fun acc c => acc.bind fun n => (digitVal c).map (n * 10 + ·)) (some 0)

/-- Parse one date string, `none` on failure. -/
def toDatetime (s : String) : Option Date :=
  match (splitDash s.data).map parseNumeral with
  | [some y, some m, some d] =>
      if 1 ≤ m ∧ m ≤ 12 ∧ 1 ≤ d ∧ d ≤ daysInMonth (isLeap y) m ∧ 1 ≤ y then
        some ⟨y, m, d⟩
      else none
  | _ => none

/-! ## Rows and the cleaner (`clean_data`, lines 11–16) -/

/-- One raw CSV row as produced by `pd.read_csv`: the two date columns as
text (`none` = an empty cell read as `NaN`; `created_date` is always
present per the data-model invariant, but nothing here assumes it parses),
plus any extra columns, carried verbatim. -/
structure RawRow where
  created : String
  canceled : Option String
  extras : List String
deriving DecidableEq, Repr

/-- One cleaned row: parsed dates (`canceled = none` is `NaT`), extras
carried through. -/
structure CRow where
  created : Date
  canceled : Option Date
  extras : List String
deriving DecidableEq, Repr

/-- `DataFrame.drop_duplicates()`: keep the first occurrence of every
row, drop later exact duplicates.  `seen` accumulates rows already kept. -/
def dropDupAux {α : Type} [DecidableEq α] : List α → List α → List α
  | _, [] => []
  | seen, a :: l =>
      if a ∈ seen then dropDupAux seen l else a :: dropDupAux (a :: seen) l

/-- `df.drop_duplicates()` (line 12). -/
def drop_duplicates {α : Type} [DecidableEq α] (l : List α) : List α :=
  dropDupAux [] l

/-- Parse one deduplicated row: `pd.to_datetime(df[created_date])` is
strict (line 14) — an unparsable value is an error naming the offending
string; `pd.to_datetime(df[canceled_date], errors=coerce)` (line 15) turns
an unparsable or missing value into `NaT`. -/
def parseRow (r : RawRow) : Except String CRow :=
  match toDatetime r.created with
  | some d => .ok ⟨d, r.canceled.bind toDatetime, r.extras⟩
  | none => .error r.created

/-- Monadic map for `Except`, short-circuiting at the first error (the
raised pandas exception aborts the run). -/
def mapExcept {ε α β : Type} (f : α → Except ε β) : List α → Except ε (List β)
  | [] => .ok []
  | a :: l =>
      match f a with
      | .error e => .error e
      | .ok b =>
          match mapExcept f l with
          | .error e => .error e
          | .ok bs => .ok (b :: bs)

/-- `clean_data` (lines 11–16): drop exact duplicates of the raw table,
then parse the two date columns; an unparsable `created_date` aborts the
whole run. -/
def clean_data (t : List RawRow) : Except String (List CRow) :=
  mapExcept parseRow (drop_duplicates t)

/-- `clean_data` applied a second time, to an already-cleaned table:
`pd.to_datetime` of a datetime column is the identity (also with
`errors=coerce`, which keeps `NaT`), so only `drop_duplicates` acts. -/
def clean_data_cleaned (t : List CRow) : List CRow :=
  drop_duplicates t

/-! ## Statistics reporter (lines 28–66)

A pandas numeric/datetime `Series` is a list of optional values (`none` =
`NaN`/`NaT`); the reductions `mean`, `var`, `std` skip missing values and
return `NaN` when the denominator degenerates. -/

/-- `len(df[canceled_date])` (line 38), printed as `Total subscribers`. -/
def totalSubscribers (rows : List CRow) : Nat :=
  (rows.map CRow.canceled).length

/-- `len(df[canceled_date].dropna())` (line 39), printed as
`Current subscribers`. -/
def currentSubscribers (rows : List CRow) : Nat :=
  ((rows.map CRow.canceled).filterMap id).length

/-- `(df[canceled_date] - df[created_date]).dt.days` for one row
(line 58): `NaT` minus anything is `NaT`; otherwise the signed number of
days between the two timestamps. -/
def subscription_duration (r : CRow) : Option Int :=
  r.canceled.map fun c => (rataDie c : Int) - (rataDie r.created : Int)

/-- The derived `subscription_duration` column (line 58). -/
def durationColumn (rows : List CRow) : List (Option Int) :=
  rows.map subscription_duration

/-- The non-missing values of a series, as rationals (pandas computes in
float, exact on this data). -/
def seriesVals (col : List (Option Int)) : List ℚ :=
  (col.filterMap id).map fun z : Int => (z : ℚ)

/-- `Series.mean()`: skips `NaN`; `NaN` (here `none`) on an all-missing
series. -/
def seriesMean (col : List (Option Int)) : Option ℚ :=
  let xs := seriesVals col
  if xs.length = 0 then none else some (xs.sum / (xs.length : ℚ))

/-- `Series.var()`: sample variance, denominator `n - 1` (pandas default
`ddof=1`); `NaN` when fewer than two non-missing values. -/
def seriesVar (col : List (Option Int)) : Option ℚ :=
  let xs := seriesVals col
  if xs.length ≤ 1 then none
  else some ((xs.map fun x => (x - xs.sum / (xs.length : ℚ)) ^ 2).sum / ((xs.length : ℚ) - 1))

/-- `Series.std()`: square root of the sample variance. -/
noncomputable def seriesStd (col : List (Option Int)) : Option ℝ :=
  (seriesVar col).map fun v : ℚ => Real.sqrt (v : ℝ)

/-- `avg_duration` (line 59). -/
def avg_duration (rows : List CRow) : Option ℚ :=
  seriesMean (durationColumn rows)

/-- `duration_variance` (line 63). -/
def duration_variance (rows : List CRow) : Option ℚ :=
  seriesVar (durationColumn rows)

/-- `duration_std` (line 64). -/
noncomputable def duration_std (rows : List CRow) : Option ℝ :=
  seriesStd (durationColumn rows)

/-! ## The self-assignment `df[canceled_date] = df[canceled_date].dropna()`
(line 75)

Pandas aligns the assigned series to the frame by index label: rows keep
their labels through cleaning, `dropna` keeps the sub-series of non-null
entries with their labels, and assignment writes the looked-up value at
each label, `NaN` where the label is absent.  Labels are modelled as the
distinct naturals `0, 1, 2, …` (only their distinctness matters). -/

/-- Rows paired with their index labels. -/
def enumF {α : Type} : Nat → List α → List (Nat × α)
  | _, [] => []
  | n, a :: l => (n, a) :: enumF (n + 1) l

/-- `df[canceled_date].dropna()`: the labelled non-null entries. -/
def dropnaPairs (rows : List CRow) : List (Nat × Date) :=
  (enumF 0 rows).filterMap fun p => p.2.canceled.map fun d => (p.1, d)

/-- Value of a labelled series at label `i`, `NaN` when absent. -/
def lookupIdx (ps : List (Nat × Date)) (i : Nat) : Option Date :=
  (ps.find? fun p => p.1 == i).map Prod.snd

/-- The whole reassignment of line 75: every row's `canceled_date` becomes
the aligned value of the dropped-na series at the row's label. -/
def assignCanceledDropna (rows : List CRow) : List CRow :=
  (enumF 0 rows).map fun p => { p.2 with canceled := lookupIdx (dropnaPairs rows) p.1 }

/-! ## Monthly heatmap aggregation (lines 92–104)

Line 92 derives `canceled_month` from the `canceled_date` column after the
line-75 reassignment; that reassignment leaves the column unchanged
(proved below), so the aggregation is stated on the cleaned rows.
`groupby(canceled_month).size()` drops `NaT` keys and returns one count
per distinct key, keys sorted ascending (pandas `sort=True` default). -/

/-- The `canceled_month` values of the rows that have a cancellation
(`NaT` rows carry a `NaT` month and are dropped by `groupby`). -/
def canceledMonths (rows : List CRow) : List Nat :=
  (rows.filterMap CRow.canceled).map periodM

/-- `cancellations_by_month` (line 95): one `(month, count)` bucket per
distinct cancellation month, months ascending. -/
def cancellations_by_month (rows : List CRow) : List (Nat × Nat) :=
  (List.insertionSort (· ≤ ·) (canceledMonths rows).dedup).map
    fun k => (k, (canceledMonths rows).count k)

/-- The rendered heatmap values (lines 98–104): the bucket counts, except
that when the last bucket's calendar month is September its count is
replaced by `int(count * (30 / 8))` — Python float multiplication by the
exact value 3.75 followed by `int` truncation, i.e. `count * 30 / 8` in
natural-number division. -/
def heat_data (rows : List CRow) : List Nat :=
  let counts := (cancellations_by_month rows).map Prod.snd
  match (cancellations_by_month rows).getLast? with
  | none => counts
  | some b => if monthOfKey b.1 = 9 then counts.dropLast ++ [b.2 * 30 / 8] else counts

/-! ## Concrete fixtures used by the testable properties -/

/-- Three cleaned records with subscription durations of 10, 20 and 30
days (the second and third cross a month boundary, February being 28 days
in 2023). -/
def fixtureRows : List CRow :=
  [⟨⟨2023, 1, 5⟩, some ⟨2023, 1, 15⟩, []⟩,
   ⟨⟨2023, 2, 20⟩, some ⟨2023, 3, 12⟩, []⟩,
   ⟨⟨2023, 3, 1⟩, some ⟨2023, 3, 31⟩, []⟩]

/-- A cleaned table with no cancellation at all. -/
def fixtureNoCancel : List CRow :=
  [⟨⟨2023, 1, 1⟩, none, []⟩, ⟨⟨2023, 2, 2⟩, none, []⟩]

/-- Cleaned records cancelled in January (twice) and February (once) of
the same year. -/
def fixtureJanFeb : List CRow :=
  [⟨⟨2023, 1, 1⟩, some ⟨2023, 1, 10⟩, []⟩,
   ⟨⟨2023, 1, 2⟩, some ⟨2023, 1, 20⟩, []⟩,
   ⟨⟨2023, 1, 3⟩, some ⟨2023, 2, 5⟩, []⟩]

/-- Cleaned records whose cancellations fall in August 2023 (twice) and
September 2023 (once), so the last heatmap bucket is a September. -/
def fixtureSept : List CRow :=
  [⟨⟨2023, 8, 1⟩, some ⟨2023, 8, 2⟩, []⟩,
   ⟨⟨2023, 8, 1⟩, some ⟨2023, 8, 20⟩, []⟩,
   ⟨⟨2023, 9, 1⟩, some ⟨2023, 9, 5⟩, []⟩]

/-- Two raw rows that are textually different (so exact-duplicate removal
keeps both) but denote the same dates after parsing. -/
def rawTextVariants : List RawRow :=
  [⟨"2023-01-01", some "2023-02-02", []⟩,
   ⟨"2023-1-1", some "2023-02-02", []⟩]

/-- The single cleaned row both elements of `rawTextVariants` parse to. -/
def cleanedVariant : CRow :=
  ⟨⟨2023, 1, 1⟩, some ⟨2023, 2, 2⟩, []⟩

/-- A second pair of textually different raw rows denoting equal parsed
rows. -/
def rawTextVariants2 : List RawRow :=
  [⟨"2023-03-04", some "2023-05-06", []⟩,
   ⟨"2023-3-4", some "2023-5-6", []⟩]

/-- The single cleaned row both elements of `rawTextVariants2` parse to. -/
def cleanedVariant2 : CRow :=
  ⟨⟨2023, 3, 4⟩, some ⟨2023, 5, 6⟩, []⟩

/-- Two raw rows that stay distinct after parsing (the first has an
unparsable `canceled_date`, coerced to missing). -/
def rawDistinct : List RawRow :=
  [⟨"2023-01-01", some "x", []⟩, ⟨"2023-01-02", none, []⟩]

/-- The cleaned table of `rawDistinct`. -/
def cleanedDistinct : List CRow :=
  [⟨⟨2023, 1, 1⟩, none, []⟩, ⟨⟨2023, 1, 2⟩, none, []⟩]

/-! ## Helper lemmas: duplicate removal -/

theorem mem_dropDupAux {α : Type} [DecidableEq α] (a : α) :
    ∀ (l seen : List α), a ∈ dropDupAux seen l ↔ a ∈ l ∧ a ∉ seen := by
  intro l
  induction l with
  | nil => intro seen; simp [dropDupAux]
  | cons b l ih =>
      intro seen
      by_cases hab : a = b
      · subst hab
        by_cases hb : a ∈ seen
        · rw [dropDupAux, if_pos hb, ih]
          simp [hb]
        · rw [dropDupAux, if_neg hb]
          simp [hb]
      · by_cases hb : b ∈ seen
        · rw [dropDupAux, if_pos hb, ih]
          simp only [List.mem_cons]
          tauto
        · rw [dropDupAux, if_neg hb, List.mem_cons, ih]
          simp only [List.mem_cons]
          tauto

theorem nodup_dropDupAux {α : Type} [DecidableEq α] :
    ∀ (l seen : List α), (dropDupAux seen l).Nodup := by
  intro l
  induction l with
  | nil => intro seen; simp [dropDupAux]
  | cons b l ih =>
      intro seen
      by_cases hb : b ∈ seen
      · simpa [dropDupAux, if_pos hb] using ih seen
      · rw [dropDupAux, if_neg hb]
        refine List.nodup_cons.mpr ⟨fun hmem => ?_, ih (b :: seen)⟩
        exact ((mem_dropDupAux b l (b :: seen)).mp hmem).2 (by simp)

theorem drop_duplicates_nodup {α : Type} [DecidableEq α] (l : List α) :
    (drop_duplicates l).Nodup :=
  nodup_dropDupAux l []

theorem mem_drop_duplicates {α : Type} [DecidableEq α] (a : α) (l : List α) :
    a ∈ drop_duplicates l ↔ a ∈ l := by
  simp [drop_duplicates, mem_dropDupAux]

theorem dropDupAux_eq_self {α : Type} [DecidableEq α] :
    ∀ (l seen : List α), l.Nodup → (∀ a ∈ l, a ∉ seen) → dropDupAux seen l = l := by
  intro l
  induction l with
  | nil => intro seen _ _; rfl
  | cons b l ih =>
      intro seen hn hd
      have hb : b ∉ seen := hd b (by simp)
      rw [dropDupAux, if_neg hb]
      congr 1
      refine ih (b :: seen) (List.nodup_cons.mp hn).2 fun a ha => ?_
      intro hs
      rcases List.mem_cons.mp hs with rfl | hs
      · exact (List.nodup_cons.mp hn).1 ha
      · exact hd a (List.mem_cons_of_mem _ ha) hs

theorem drop_duplicates_eq_self {α : Type} [DecidableEq α] (l : List α) (hn : l.Nodup) :
    drop_duplicates l = l :=
  dropDupAux_eq_self l [] hn (by simp)

/-! ## Helper lemmas: `mapExcept` -/

theorem mapExcept_cons_err {ε α β : Type} (f : α → Except ε β) (a : α) (l : List α)
    (e : ε) (hfa : f a = .error e) : mapExcept f (a :: l) = .error e := by
  conv_lhs => rw [mapExcept]
  rw [hfa]

theorem mapExcept_cons_ok {ε α β : Type} (f : α → Except ε β) (a : α) (l : List α)
    (b : β) (hfa : f a = .ok b) :
    mapExcept f (a :: l) =
      match mapExcept f l with
      | .error e => .error e
      | .ok bs => .ok (b :: bs) := by
  conv_lhs => rw [mapExcept]
  rw [hfa]

theorem mapExcept_ok_forall2 {ε α β : Type} (f : α → Except ε β) :
    ∀ (l : List α) (bs : List β), mapExcept f l = .ok bs →
      List.Forall₂ (fun a b => f a = .ok b) l bs := by
  intro l
  induction l with
  | nil =>
      intro bs h
      cases h
      exact List.Forall₂.nil
  | cons a l ih =>
      intro bs h
      rcases hfa : f a with e | b
      · rw [mapExcept_cons_err f a l e hfa] at h
        cases h
      · rw [mapExcept_cons_ok f a l b hfa] at h
        rcases hrest : mapExcept f l with e | bs2 <;> rw [hrest] at h
        · cases h
        · injection h with h2
          subst h2
          exact List.Forall₂.cons hfa (ih bs2 hrest)

theorem mapExcept_error_of_mem {ε α β : Type} (f : α → Except ε β) :
    ∀ (l : List α) (a : α), a ∈ l → (∀ b, f a ≠ .ok b) →
      ∃ e, mapExcept f l = .error e := by
  intro l
  induction l with
  | nil => intro a ha _; cases ha
  | cons c l ih =>
      intro a ha hbad
      rcases hfc : f c with e | b
      · exact ⟨e, mapExcept_cons_err f c l e hfc⟩
      · have ha2 : a ∈ l := by
          rcases List.mem_cons.mp ha with rfl | h2
          · exact absurd hfc (hbad b)
          · exact h2
        rcases ih a ha2 hbad with ⟨e, he⟩
        exact ⟨e, by rw [mapExcept_cons_ok f c l b hfc, he]⟩

theorem mapExcept_ok_of_forall {ε α β : Type} (f : α → Except ε β) :
    ∀ l : List α, (∀ a ∈ l, ∃ b, f a = .ok b) → ∃ bs, mapExcept f l = .ok bs := by
  intro l
  induction l with
  | nil => intro _; exact ⟨[], rfl⟩
  | cons a l ih =>
      intro h
      rcases h a (by simp) with ⟨b, hb⟩
      rcases ih (fun c hc => h c (List.mem_cons_of_mem _ hc)) with ⟨bs, hbs⟩
      exact ⟨b :: bs, by rw [mapExcept_cons_ok f a l b hb, hbs]⟩

theorem forall2_mem_right {α β : Type} {R : α → β → Prop} :
    ∀ {l : List α} {bs : List β}, List.Forall₂ R l bs → ∀ b ∈ bs, ∃ a ∈ l, R a b := by
  intro l bs h
  induction h with
  | nil => intro b hb; cases hb
  | cons hR htail ih =>
      intro b hb
      rcases List.mem_cons.mp hb with rfl | hb
      · exact ⟨_, by simp, hR⟩
      · rcases ih b hb with ⟨a, ha, hRa⟩
        exact ⟨a, List.mem_cons_of_mem _ ha, hRa⟩

theorem map_eq_of_forall2 {α β γ : Type} {R : α → β → Prop} (g : β → γ) (f : α → γ)
    (hgf : ∀ a b, R a b → g b = f a) :
    ∀ {l : List α} {bs : List β}, List.Forall₂ R l bs → bs.map g = l.map f := by
  intro l bs h
  induction h with
  | nil => rfl
  | cons hR htail ih => simp [ih, hgf _ _ hR]

/-! ## Helper lemmas: the cleaner -/

theorem parseRow_ok_canceled (r : RawRow) (c : CRow) (h : parseRow r = .ok c) :
    c.canceled = r.canceled.bind toDatetime := by
  unfold parseRow at h
  rcases hd : toDatetime r.created with _ | d <;> rw [hd] at h
  · cases h
  · injection h with h2
    rw [← h2]

theorem parseRow_ok_of_created_parses (r : RawRow) (d : Date)
    (hd : toDatetime r.created = some d) :
    parseRow r = .ok ⟨d, r.canceled.bind toDatetime, r.extras⟩ := by
  unfold parseRow
  rw [hd]

theorem clean_data_forall2 (t : List RawRow) (rows : List CRow)
    (h : clean_data t = .ok rows) :
    List.Forall₂ (fun r c => parseRow r = .ok c) (drop_duplicates t) rows :=
  mapExcept_ok_forall2 parseRow (drop_duplicates t) rows h

/-! ## Helper lemmas: the statistics step -/

theorem length_filterMap_canceled (rows : List CRow) :
    ((rows.map CRow.canceled).filterMap id).length =
      (rows.filter fun r => r.canceled.isSome).length := by
  induction rows with
  | nil => rfl
  | cons r rows ih =>
      rcases hc : r.canceled with _ | d <;>
        simp [List.filter_cons, hc] at ih ⊢ <;> exact ih

theorem durations_filter_eq (rows : List CRow) :
    (durationColumn (rows.filter fun r => r.canceled.isSome)).filterMap id =
      (durationColumn rows).filterMap id := by
  induction rows with
  | nil => rfl
  | cons r rows ih =>
      rcases hc : r.canceled with _ | d
      · simp only [durationColumn, List.filter_cons, hc, Option.isSome_none,
          Bool.false_eq_true, if_false, List.map_cons, List.filterMap_cons,
          subscription_duration, Option.map_none] at ih ⊢
        exact ih
      · simp only [durationColumn, List.filter_cons, hc, Option.isSome_some,
          if_true, List.map_cons, List.filterMap_cons, subscription_duration,
          Option.map_some, id] at ih ⊢
        rw [ih]

theorem seriesVals_durations_filter (rows : List CRow) :
    seriesVals (durationColumn (rows.filter fun r => r.canceled.isSome)) =
      seriesVals (durationColumn rows) := by
  unfold seriesVals
  rw [durations_filter_eq]

theorem seriesMean_congr (c1 c2 : List (Option Int)) (h : seriesVals c1 = seriesVals c2) :
    seriesMean c1 = seriesMean c2 := by
  unfold seriesMean
  rw [h]

theorem seriesVar_congr (c1 c2 : List (Option Int)) (h : seriesVals c1 = seriesVals c2) :
    seriesVar c1 = seriesVar c2 := by
  unfold seriesVar
  rw [h]

/-! ## Helper lemmas: the line-75 reassignment -/

theorem enumF_fst_ge {α : Type} :
    ∀ (l : List α) (n : Nat) (p : Nat × α), p ∈ enumF n l → n ≤ p.1 := by
  intro l
  induction l with
  | nil => intro n p hp; cases hp
  | cons a l ih =>
      intro n p hp
      rcases List.mem_cons.mp hp with rfl | hp
      · exact Nat.le_refl n
      · exact Nat.le_of_succ_le (ih (n + 1) p hp)

theorem dropnaPairs_fst_ge (l : List CRow) (n : Nat) (p : Nat × Date)
    (hp : p ∈ (enumF n l).filterMap fun q => q.2.canceled.map fun d => (q.1, d)) :
    n ≤ p.1 := by
  rcases List.mem_filterMap.mp hp with ⟨q, hq, hfq⟩
  rcases hc : q.2.canceled with _ | d <;> rw [hc] at hfq
  · cases hfq
  · injection hfq with h2
    rw [← h2]
    exact enumF_fst_ge l n q hq

theorem lookup_pairs_aux (l : List CRow) : ∀ (n k : Nat),
    lookupIdx ((enumF n l).filterMap fun q => q.2.canceled.map fun d => (q.1, d)) (n + k) =
      (l.get? k).bind CRow.canceled := by
  induction l with
  | nil => intro n k; cases k <;> rfl
  | cons c l ih =>
      intro n k
      have henum : enumF n (c :: l) = (n, c) :: enumF (n + 1) l := rfl
      have htail : ∀ m, m < n + 1 →
          lookupIdx ((enumF (n + 1) l).filterMap fun q => q.2.canceled.map fun d => (q.1, d)) m
            = none := by
        intro m hm
        unfold lookupIdx
        rw [List.find?_eq_none.mpr]
        · rfl
        · intro p hp
          have := dropnaPairs_fst_ge l (n + 1) p hp
          simp only [beq_iff_eq]
          omega
      rcases hc : c.canceled with _ | d
      · have hskip : (fun q : Nat × CRow => q.2.canceled.map fun d => (q.1, d)) (n, c) = none := by
          simp [hc]
        rw [henum, List.filterMap_cons_none (f := fun q : Nat × CRow => q.2.canceled.map fun d => (q.1, d)) hskip]
        cases k with
        | zero =>
            rw [htail (n + 0) (by omega)]
            simp [hc]
        | succ k =>
            rw [show n + (k + 1) = (n + 1) + k by omega, ih (n + 1) k]
            rfl
      · have hkeep : (fun q : Nat × CRow => q.2.canceled.map fun d => (q.1, d)) (n, c)
            = some (n, d) := by
          simp [hc]
        rw [henum, List.filterMap_cons_some (f := fun q : Nat × CRow => q.2.canceled.map fun d => (q.1, d)) hkeep]
        cases k with
        | zero =>
            unfold lookupIdx
            rw [List.find?_cons_of_pos _ (by simp)]
            simp [hc]
        | succ k =>
            unfold lookupIdx
            rw [List.find?_cons_of_neg _ (by simp only [beq_iff_eq]; omega)]
            rw [show n + (k + 1) = (n + 1) + k by omega]
            have h2 := ih (n + 1) k
            unfold lookupIdx at h2
            rw [h2]
            rfl

theorem assign_general (full : List CRow) :
    ∀ (l : List CRow) (n : Nat),
      (∀ k, lookupIdx (dropnaPairs full) (n + k) = (l.get? k).bind CRow.canceled) →
      (enumF n l).map (fun p => { p.2 with canceled := lookupIdx (dropnaPairs full) p.1 }) = l := by
  intro l
  induction l with
  | nil => intro n _; rfl
  | cons c l ih =>
      intro n hlk
      rw [show enumF n (c :: l) = (n, c) :: enumF (n + 1) l from rfl, List.map_cons]
      have hhead : lookupIdx (dropnaPairs full) n = c.canceled := by
        have := hlk 0
        simpa using this
      rw [hhead]
      have htail : (enumF (n + 1) l).map
          (fun p => { p.2 with canceled := lookupIdx (dropnaPairs full) p.1 }) = l := by
        refine ih (n + 1) fun k => ?_
        have := hlk (k + 1)
        rw [show n + (k + 1) = (n + 1) + k by omega] at this
        simpa using this
      rw [htail]

/-- The reassignment of line 75 is in fact the identity on the whole
table: every non-null entry is written back at its own label and every
null entry stays absent, hence `NaN`. -/
theorem assignCanceledDropna_eq_self (rows : List CRow) :
    assignCanceledDropna rows = rows := by
  unfold assignCanceledDropna
  refine assign_general rows rows 0 fun k => ?_
  have := lookup_pairs_aux rows 0 k
  simpa [dropnaPairs] using this

/-! ## Helper lemmas: nodup through parsing -/

theorem nodup_of_mapExcept {ε α β : Type} (f : α → Except ε β) :
    ∀ (l : List α) (bs : List β), mapExcept f l = .ok bs → l.Nodup →
      (∀ a1 ∈ l, ∀ a2 ∈ l, f a1 = f a2 → a1 = a2) → bs.Nodup := by
  intro l
  induction l with
  | nil =>
      intro bs h _ _
      cases h
      exact List.nodup_nil
  | cons a l ih =>
      intro bs h hn hinj
      rcases hfa : f a with e | b
      · rw [mapExcept_cons_err f a l e hfa] at h
        cases h
      · rw [mapExcept_cons_ok f a l b hfa] at h
        rcases hrest : mapExcept f l with e | bs2 <;> rw [hrest] at h
        · cases h
        · injection h with h2
          subst h2
          refine List.nodup_cons.mpr ⟨fun hbmem => ?_, ?_⟩
          · rcases forall2_mem_right (mapExcept_ok_forall2 f l bs2 hrest) b hbmem
              with ⟨a2, ha2, hfa2⟩
            have ha2a : a2 = a :=
              hinj a2 (List.mem_cons_of_mem _ ha2) a (by simp) (by rw [hfa2, hfa])
            exact (List.nodup_cons.mp hn).1 (ha2a ▸ ha2)
          · exact ih bs2 hrest (List.nodup_cons.mp hn).2 fun a1 h1 a2 h2 =>
              hinj a1 (List.mem_cons_of_mem _ h1) a2 (List.mem_cons_of_mem _ h2)

/-! ## Helper lemmas: the heatmap aggregation -/

theorem mem_sorted_keys (rows : List CRow) (k : Nat) :
    k ∈ List.insertionSort (· ≤ ·) (canceledMonths rows).dedup ↔
      k ∈ canceledMonths rows := by
  rw [(List.perm_insertionSort (· ≤ ·) (canceledMonths rows).dedup).mem_iff,
    List.mem_dedup]

theorem buckets_map_fst (rows : List CRow) :
    (cancellations_by_month rows).map Prod.fst =
      List.insertionSort (· ≤ ·) (canceledMonths rows).dedup := by
  unfold cancellations_by_month
  rw [List.map_map]
  exact List.map_id _

theorem buckets_fst_nodup (rows : List CRow) :
    ((cancellations_by_month rows).map Prod.fst).Nodup := by
  rw [buckets_map_fst]
  exact ((List.perm_insertionSort (· ≤ ·) _).nodup_iff).mpr
    (List.nodup_dedup (canceledMonths rows))

theorem buckets_fst_sorted (rows : List CRow) :
    ((cancellations_by_month rows).map Prod.fst).Sorted (· < ·) := by
  rw [buckets_map_fst]
  refine List.Sorted.lt_of_le (List.sorted_insertionSort (· ≤ ·) _) ?_
  rw [← buckets_map_fst]
  exact buckets_fst_nodup rows

theorem pairwise_getLast_max {α : Type} (R : α → α → Prop) :
    ∀ (l : List α) (b : α), l.Pairwise R → l.getLast? = some b →
      ∀ x ∈ l, x = b ∨ R x b := by
  intro l
  induction l with
  | nil => intro b _ h; cases h
  | cons a l ih =>
      intro b hp hlast x hx
      cases l with
      | nil =>
          rcases List.mem_singleton.mp hx with rfl
          cases hlast
          exact Or.inl rfl
      | cons c l2 =>
          rw [List.getLast?_cons_cons] at hlast
          rcases List.mem_cons.mp hx with rfl | hx
          · right
            have hbmem : b ∈ c :: l2 := List.mem_of_mem_getLast? hlast
            exact (List.pairwise_cons.mp hp).1 b hbmem
          · exact ih b (List.pairwise_cons.mp hp).2 hlast x hx

theorem nat_trunc_scale_eq_floor (c : Nat) :
    ((c * 30 / 8 : Nat) : Int) = ⌊((c : ℚ) * (30 / 8))⌋ := by
  have h1 : ((c : ℚ) * (30 / 8)) = ((c * 30 : Nat) : ℚ) / ((8 : Nat) : ℚ) := by
    push_cast
    ring
  rw [h1, show (c * 30 / 8 : Nat) = ⌊((c * 30 : Nat) : ℚ) / ((8 : Nat) : ℚ)⌋₊ from
    (Nat.floor_div_eq_div _ _).symm]
  exact Int.natCast_floor_eq_floor (by positivity)

/-! ## The claims -/

/-- C1: for every cleaned table, the `Total subscribers` output
(`len(df[canceled_date])`) equals the number of rows of the cleaned
table, and the `Current subscribers` output
(`len(df[canceled_date].dropna())`) equals the count of rows whose
`canceled_date` is non-missing — the canceled count, not the active
count. -/
theorem subscriber_counts_reported (rows : List CRow) :
    totalSubscribers rows = rows.length ∧
    currentSubscribers rows = (rows.filter fun r => r.canceled.isSome).length := by
  constructor
  · simp [totalSubscribers]
  · exact length_filterMap_canceled rows

/-- C4: during cleaning, an unparsable `created_date` makes the whole run
fail with an error, while an unparsable or empty `canceled_date` never
raises — every such value is coerced to the missing marker and the
pipeline continues with the cleaned rows. -/
theorem clean_data_error_handling (t : List RawRow) :
    ((∃ r ∈ t, toDatetime r.created = none) → ∃ e, clean_data t = .error e) ∧
    ((∀ r ∈ t, (toDatetime r.created).isSome) →
      ∃ rows, clean_data t = .ok rows ∧
        rows.map CRow.canceled =
          (drop_duplicates t).map fun r => r.canceled.bind toDatetime) := by
  constructor
  · rintro ⟨r, hr, hbad⟩
    refine mapExcept_error_of_mem parseRow (drop_duplicates t) r
      ((mem_drop_duplicates r t).mpr hr) fun c hok => ?_
    unfold parseRow at hok
    rw [hbad] at hok
    cases hok
  · intro hall
    have hparse : ∀ r ∈ drop_duplicates t, ∃ c, parseRow r = .ok c := by
      intro r hr
      rcases Option.isSome_iff_exists.mp (hall r ((mem_drop_duplicates r t).mp hr)) with ⟨d, hd⟩
      exact ⟨_, parseRow_ok_of_created_parses r d hd⟩
    rcases mapExcept_ok_of_forall parseRow (drop_duplicates t) hparse with ⟨rows, hrows⟩
    refine ⟨rows, hrows, ?_⟩
    exact map_eq_of_forall2 CRow.canceled (fun r => r.canceled.bind toDatetime)
      parseRow_ok_canceled (mapExcept_ok_forall2 parseRow (drop_duplicates t) rows hrows)

/-- Witness for C4: a table whose only `created_date` is unparsable makes
`clean_data` fail, and a table with a parseable `created_date` but an
unparsable `canceled_date` cleans successfully with the cancellation
coerced to missing. -/
theorem clean_data_error_handling_witness :
    (∃ e, clean_data [⟨"oops", none, []⟩] = .error e) ∧
    (∃ rows, clean_data [⟨"2023-01-01", some "nope", []⟩] = .ok rows ∧
      rows.map CRow.canceled =
        (drop_duplicates ([⟨"2023-01-01", some "nope", []⟩] : List RawRow)).map
          fun r => r.canceled.bind toDatetime) :=
  ⟨(clean_data_error_handling [⟨"oops", none, []⟩]).1 (by decide),
   (clean_data_error_handling [⟨"2023-01-01", some "nope", []⟩]).2 (by decide)⟩

/-- C7: when the cleaned table has no present `canceled_date`, the
statistics step does not raise — the mean, sample variance and standard
deviation of `subscription_duration` all evaluate to the missing value. -/
theorem stats_on_empty_duration_subset (rows : List CRow)
    (h : ∀ r ∈ rows, r.canceled = none) :
    avg_duration rows = none ∧ duration_variance rows = none ∧
    duration_std rows = none := by
  have hfm : (durationColumn rows).filterMap id = [] := by
    refine List.filterMap_eq_nil_iff.mpr fun o ho => ?_
    rcases List.mem_map.mp ho with ⟨r, hr, rfl⟩
    simp [subscription_duration, h r hr]
  have hv : seriesVals (durationColumn rows) = [] := by
    unfold seriesVals
    rw [hfm, List.map_nil]
  have hvar : duration_variance rows = none := by
    unfold duration_variance seriesVar
    simp [hv]
  refine ⟨?_, hvar, ?_⟩
  · unfold avg_duration seriesMean
    simp [hv]
  · unfold duration_std seriesStd
    rw [show seriesVar (durationColumn rows) = none from hvar]
    rfl

/-- Witness for C7: the statistics of a concrete two-row table with no
cancellations are all missing. -/
theorem stats_on_empty_duration_subset_witness :
    avg_duration fixtureNoCancel = none ∧
    duration_variance fixtureNoCancel = none ∧
    duration_std fixtureNoCancel = none :=
  stats_on_empty_duration_subset fixtureNoCancel (by decide)

/-- C3: `subscription_duration` is the signed number of days between
`canceled_date` and `created_date` and is missing exactly where
`canceled_date` is missing; the reported mean, sample variance
(denominator `n - 1`) and standard deviation are functions of the
non-missing durations alone (restricting the table to the rows with a
present `canceled_date` changes nothing); and on the three-record fixture
with durations 10, 20, 30 days they equal 20, 100 and 10. -/
theorem subscription_duration_stats :
    (∀ r : CRow,
      subscription_duration r =
        r.canceled.map fun c => (rataDie c : Int) - (rataDie r.created : Int)) ∧
    (∀ r : CRow, (subscription_duration r).isSome = r.canceled.isSome) ∧
    (∀ rows : List CRow,
      avg_duration (rows.filter fun r => r.canceled.isSome) = avg_duration rows ∧
      duration_variance (rows.filter fun r => r.canceled.isSome) = duration_variance rows ∧
      duration_std (rows.filter fun r => r.canceled.isSome) = duration_std rows) ∧
    durationColumn fixtureRows = [some 10, some 20, some 30] ∧
    avg_duration fixtureRows = some 20 ∧
    duration_variance fixtureRows = some 100 ∧
    duration_std fixtureRows = some 10 := by
  have hcol : durationColumn fixtureRows = [some 10, some 20, some 30] := by decide
  have hvals : seriesVals [some 10, some 20, some 30] = [10, 20, 30] := by
    simp [seriesVals]
  have hvar : duration_variance fixtureRows = some 100 := by
    rw [duration_variance, hcol, seriesVar, hvals]
    norm_num
  refine ⟨fun r => rfl, fun r => ?_, fun rows => ?_, hcol, ?_, hvar, ?_⟩
  · cases hc : r.canceled <;> simp [subscription_duration, hc]
  · refine ⟨seriesMean_congr _ _ (seriesVals_durations_filter rows),
      seriesVar_congr _ _ (seriesVals_durations_filter rows), ?_⟩
    unfold duration_std seriesStd
    rw [show seriesVar (durationColumn (rows.filter fun r => r.canceled.isSome)) =
      seriesVar (durationColumn rows) from
      seriesVar_congr _ _ (seriesVals_durations_filter rows)]
  · rw [avg_duration, hcol, seriesMean, hvals]
    norm_num
  · rw [duration_std, seriesStd, show seriesVar (durationColumn fixtureRows) = some 100 from hvar]
    simp only [Option.map_some']
    rw [show ((100 : ℚ) : ℝ) = 10 ^ 2 by norm_num,
      Real.sqrt_sq (by norm_num : (0 : ℝ) ≤ 10)]

/-- C9: duplicate removal runs on the raw, unparsed table, so two rows
whose date fields are textually different spellings of the same timestamp
are both retained, and the cleaned table can contain two rows that are
identical after parsing. -/
theorem dedup_precedes_parsing :
    drop_duplicates rawTextVariants2 = rawTextVariants2 ∧
    clean_data rawTextVariants2 = .ok [cleanedVariant2, cleanedVariant2] := by
  decide

/-- C6: reassigning the `canceled_date` column to its non-missing subset
(line 75) does not change the table's row count and leaves every other
column unchanged: the table after the reassignment agrees with the table
before it on all fields other than `canceled_date`. -/
theorem reassignment_preserves_table (rows : List CRow) :
    (assignCanceledDropna rows).length = rows.length ∧
    (assignCanceledDropna rows).map CRow.created = rows.map CRow.created ∧
    (assignCanceledDropna rows).map CRow.extras = rows.map CRow.extras := by
  rw [assignCanceledDropna_eq_self]
  exact ⟨rfl, rfl, rfl⟩

/-- C5 counterexample: duplicate removal happens before parsing, so on an
input whose two raw rows are different spellings of the same dates the
cleaned table holds two identical rows, and re-cleaning it removes one of
them — cleaning is not idempotent there. -/
theorem clean_data_dedup_counterexample :
    clean_data rawTextVariants = .ok [cleanedVariant, cleanedVariant] ∧
    ¬ ([cleanedVariant, cleanedVariant] : List CRow).Nodup ∧
    clean_data_cleaned [cleanedVariant, cleanedVariant] ≠ [cleanedVariant, cleanedVariant] := by
  refine ⟨by decide, by decide, by decide⟩

/-- C5 (amended): provided date parsing identifies no two distinct raw
rows of the input, the cleaned table contains no two identical rows, and
applying the cleaning step to the already-cleaned table yields the same
table. -/
theorem clean_data_nodup_and_idempotent (t : List RawRow) (rows : List CRow)
    (hok : clean_data t = .ok rows)
    (hinj : ∀ r1 ∈ t, ∀ r2 ∈ t, parseRow r1 = parseRow r2 → r1 = r2) :
    rows.Nodup ∧ clean_data_cleaned rows = rows := by
  have hnd : rows.Nodup := by
    refine nodup_of_mapExcept parseRow (drop_duplicates t) rows hok
      (drop_duplicates_nodup t) fun a1 h1 a2 h2 => ?_
    exact hinj a1 ((mem_drop_duplicates a1 t).mp h1) a2 ((mem_drop_duplicates a2 t).mp h2)
  exact ⟨hnd, drop_duplicates_eq_self rows hnd⟩

/-- Witness for the amended C5 at a concrete two-row input on which
parsing is injective. -/
theorem clean_data_nodup_and_idempotent_witness :
    cleanedDistinct.Nodup ∧ clean_data_cleaned cleanedDistinct = cleanedDistinct :=
  clean_data_nodup_and_idempotent rawDistinct cleanedDistinct (by decide) (by decide)

/-- C8: the heatmap aggregation produces one bucket per distinct
cancellation year-month — bucket keys are pairwise distinct, and
`(k, c)` is a bucket exactly when some cancellation falls in month `k`
and `c` counts the cancellations in month `k`; on a fixture cancelled
twice in January 2023 and once in February 2023 it yields those two
buckets with counts 2 and 1. -/
theorem heatmap_bucket_counts :
    (∀ rows : List CRow, ((cancellations_by_month rows).map Prod.fst).Nodup) ∧
    (∀ (rows : List CRow) (k c : Nat),
      (k, c) ∈ cancellations_by_month rows ↔
        k ∈ canceledMonths rows ∧ c = (canceledMonths rows).count k) ∧
    cancellations_by_month fixtureJanFeb =
      [(periodM ⟨2023, 1, 10⟩, 2), (periodM ⟨2023, 2, 5⟩, 1)] := by
  refine ⟨buckets_fst_nodup, fun rows k c => ?_, by decide⟩
  unfold cancellations_by_month
  simp only [List.mem_map, Prod.mk.injEq]
  constructor
  · rintro ⟨a, ha, rfl, rfl⟩
    exact ⟨(mem_sorted_keys rows a).mp ha, rfl⟩
  · rintro ⟨hk, rfl⟩
    exact ⟨k, (mem_sorted_keys rows k).mpr hk, rfl, rfl⟩

/-- C10: the heatmap buckets are in strictly ascending chronological
order of year-month, so the last bucket is the chronologically latest
cancellation month — every bucket's month is at most the last bucket's
month (and the September check of line 103 reads exactly that last
bucket). -/
theorem heatmap_buckets_sorted (rows : List CRow) :
    (cancellations_by_month rows).Pairwise (fun p q => p.1 < q.1) ∧
    ∀ b, (cancellations_by_month rows).getLast? = some b →
      ∀ p ∈ cancellations_by_month rows, p.1 ≤ b.1 := by
  have hpw : (cancellations_by_month rows).Pairwise (fun p q => p.1 < q.1) :=
    (List.pairwise_map).mp (buckets_fst_sorted rows)
  refine ⟨hpw, fun b hlast p hp => ?_⟩
  rcases pairwise_getLast_max _ (cancellations_by_month rows) b hpw hlast p hp with rfl | hlt
  · exact Nat.le_refl _
  · exact Nat.le_of_lt hlt

/-- Witness for C10 on the August/September fixture: its buckets end at
September 2023 (key 24284), and the August bucket's key is at most the
last bucket's key. -/
theorem heatmap_buckets_sorted_witness :
    (cancellations_by_month fixtureSept).getLast? = some (24284, 1) ∧
    ((24283, 2) : Nat × Nat).1 ≤ ((24284, 1) : Nat × Nat).1 :=
  ⟨by decide,
    (heatmap_buckets_sorted fixtureSept).2 (24284, 1) (by decide) (24283, 2) (by decide)⟩

/-- C2: when the calendar month of the last heatmap bucket is September,
the rendered value of that bucket is its raw count scaled by exactly
30/8 and rounded (truncated, per Python `int`) to an integer — it equals
`⌊count · 30/8⌋` — while every other bucket's value is its raw count
unchanged; when the last bucket is not a September, all values are the
raw counts. -/
theorem heatmap_september_scaling (rows : List CRow) (b : Nat × Nat)
    (hlast : (cancellations_by_month rows).getLast? = some b) :
    (monthOfKey b.1 = 9 →
      heat_data rows =
        ((cancellations_by_month rows).map Prod.snd).dropLast ++ [b.2 * 30 / 8] ∧
      ((b.2 * 30 / 8 : Nat) : Int) = ⌊((b.2 : ℚ) * (30 / 8))⌋) ∧
    (monthOfKey b.1 ≠ 9 →
      heat_data rows = (cancellations_by_month rows).map Prod.snd) := by
  constructor
  · intro h9
    constructor
    · unfold heat_data
      rw [hlast]
      simp [h9]
    · exact nat_trunc_scale_eq_floor b.2
  · intro h9
    unfold heat_data
    rw [hlast]
    simp [h9]

/-- Witness for C2 on the August/September fixture: the September bucket
(raw count 1) renders as `1 * 30 / 8 = 3`, the August bucket stays 2. -/
theorem heatmap_september_scaling_witness :
    (heat_data fixtureSept =
      ((cancellations_by_month fixtureSept).map Prod.snd).dropLast ++ [1 * 30 / 8] ∧
      ((1 * 30 / 8 : Nat) : Int) = ⌊((1 : ℚ) * (30 / 8))⌋) ∧
    heat_data fixtureSept = [2, 3] :=
  ⟨(heatmap_september_scaling fixtureSept (24284, 1) (by decide)).1 (by decide),
   by decide⟩

end StreamingAnalytics
